import Mathlib

/-!
Shallow embedding of the `gbundle` release-bundle builder
(`src/gbundle/gbundle.py`): text decoding and normalization, newline-convention
sniffing, bundle-name construction, commit-range resolution and bundle
assembly, together with theorems settling the specification claims.

Text is modelled as `List Char` (Python `str`), raw file content as `List Nat`
(Python `bytes`).  External collaborators (the git repository, the release
ledger on the database, the filesystem) are modelled as explicit parameters.
-/

namespace GBundle

/-- ASCII lower-casing, as applied by a case-insensitive regex match. -/
def lowerChar (c : Char) : Char :=
  if 'A' ≤ c ∧ c ≤ 'Z' then Char.ofNat (c.toNat + 32) else c

/-- The whitespace characters recognised by Python `str.strip` and by `\s`
in its regexes, restricted to the ASCII range. -/
def isPySpace (c : Char) : Bool :=
  c = ' ' || c = '\t' || c = '\n' || c = '\r' || c = '\x0b' || c = '\x0c'

/-- Strict lexicographic comparison on code points: Python `s1 < s2` on `str`,
and the collation-free reading of the `<` comparison in the emitted T-SQL guard. -/
def strLt : List Char → List Char → Bool
  | [], [] => false
  | [], _ :: _ => true
  | _ :: _, [] => false
  | a :: as, b :: bs => if a < b then true else if b < a then false else strLt as bs

/-- Lexicographic `≤`: Python `s1 <= s2` on `str`. -/
def strLe (a b : List Char) : Bool := a = b || strLt a b

theorem strLt_irrefl (a : List Char) : strLt a a = false := by
  induction a with
  | nil => rfl
  | cons c cs ih => simp [strLt, ih]

theorem strLt_total (a b : List Char) (hne : a ≠ b) :
    strLt a b = true ∨ strLt b a = true := by
  induction a generalizing b with
  | nil =>
    cases b with
    | nil => exact absurd rfl hne
    | cons y ys => left; rfl
  | cons x xs ih =>
    cases b with
    | nil => right; rfl
    | cons y ys =>
      by_cases hxy : x < y
      · left; simp [strLt, hxy]
      · by_cases hyx : y < x
        · right; simp [strLt, hyx, asymm hyx]
        · have hx : x = y := le_antisymm (not_lt.mp hyx) (not_lt.mp hxy)
          subst hx
          have hxs : xs ≠ ys := fun h => hne (by rw [h])
          rcases ih ys hxs with h | h
          · left; simp [strLt, h]
          · right; simp [strLt, h]

theorem strLt_trans (a b c : List Char) (h1 : strLt a b = true)
    (h2 : strLt b c = true) : strLt a c = true := by
  induction a generalizing b c with
  | nil =>
    cases b with
    | nil => simp [strLt] at h1
    | cons y ys =>
      cases c with
      | nil => simp [strLt] at h2
      | cons z zs => rfl
  | cons x xs ih =>
    cases b with
    | nil => simp [strLt] at h1
    | cons y ys =>
      cases c with
      | nil => simp [strLt] at h2
      | cons z zs =>
        simp only [strLt] at h1 h2 ⊢
        by_cases hxy : x < y
        · by_cases hyz : y < z
          · simp [lt_trans hxy hyz]
          · by_cases hzy : z < y
            · simp [hyz, hzy] at h2
            · have : y = z := le_antisymm (not_lt.mp hzy) (not_lt.mp hyz)
              subst this
              simp [hxy]
        · by_cases hyx : y < x
          · simp [hxy, hyx] at h1
          · have : x = y := le_antisymm (not_lt.mp hyx) (not_lt.mp hxy)
            subst this
            simp only [if_neg hxy, if_neg hyx] at h1
            by_cases hyz : x < z
            · simp [hyz]
            · by_cases hzy : z < x
              · simp [hyz, hzy] at h2
              · have : x = z := le_antisymm (not_lt.mp hzy) (not_lt.mp hyz)
                subst this
                simp only [if_neg hyz, lt_irrefl, if_neg (lt_irrefl x)] at h2 ⊢
                exact ih _ _ h1 h2

theorem strLt_asymm (a b : List Char) (h : strLt a b = true) : strLt b a = false := by
  by_contra hcon
  have hba : strLt b a = true := by
    cases hx : strLt b a with
    | false => exact absurd hx hcon
    | true => rfl
  have := strLt_trans a b a h hba
  rw [strLt_irrefl] at this
  exact Bool.false_ne_true this

theorem strLt_ne (a b : List Char) (h : strLt a b = true) : a ≠ b := by
  intro hab
  subst hab
  rw [strLt_irrefl] at h
  exact Bool.false_ne_true h

/-- The path ordering used when the assembler sorts the scoped file set
(Python `sorted` over relative-path strings). -/
def pathLe (a b : List Char) : Prop := strLe a b = true

instance : DecidableRel pathLe := fun a b =>
  inferInstanceAs (Decidable (strLe a b = true))

instance : IsTotal (List Char) pathLe where
  total a b := by
    by_cases hab : a = b
    · left; simp [pathLe, strLe, hab]
    · rcases strLt_total a b hab with h | h
      · left; simp [pathLe, strLe, h]
      · right; simp [pathLe, strLe, h]

instance : IsTrans (List Char) pathLe where
  trans a b c hab hbc := by
    simp only [pathLe, strLe, Bool.or_eq_true, decide_eq_true_eq] at hab hbc ⊢
    rcases hab with hab | hab
    · subst hab; exact hbc
    · rcases hbc with hbc | hbc
      · subst hbc; right; exact hab
      · right; exact strLt_trans _ _ _ hab hbc

instance : IsAntisymm (List Char) pathLe where
  antisymm a b hab hba := by
    simp only [pathLe, strLe, Bool.or_eq_true, decide_eq_true_eq] at hab hba
    rcases hab with hab | hab
    · exact hab
    · rcases hba with hba | hba
      · exact hba.symm
      · have := strLt_asymm a b hab
        rw [hba] at this
        exact absurd this (by simp)

/-- Python `s.split("-")`: split on every hyphen; `"".split("-") = [""]`. -/
def splitOnDash : List Char → List (List Char)
  | [] => [[]]
  | c :: rest =>
    if c = '-' then [] :: splitOnDash rest
    else
      match splitOnDash rest with
      | [] => [[c]]
      | h :: t => (c :: h) :: t

theorem splitOnDash_ne_nil (l : List Char) : splitOnDash l ≠ [] := by
  cases l with
  | nil => simp [splitOnDash]
  | cons c rest =>
    simp only [splitOnDash]
    by_cases h : c = '-'
    · simp [h]
    · simp only [if_neg h]
      cases splitOnDash rest <;> simp

theorem splitOnDash_no_dash (l : List Char) (h : '-' ∉ l) : splitOnDash l = [l] := by
  induction l with
  | nil => rfl
  | cons c rest ih =>
    have hc : c ≠ '-' := fun hc => h (by simp [hc])
    have hrest : '-' ∉ rest := fun hr => h (by simp [hr])
    simp [splitOnDash, hc, ih hrest]

theorem splitOnDash_append (l r : List Char) (h : '-' ∉ l) :
    splitOnDash (l ++ '-' :: r) = l :: splitOnDash r := by
  induction l with
  | nil => simp [splitOnDash]
  | cons c rest ih =>
    have hc : c ≠ '-' := fun hc => h (by simp [hc])
    have hrest : '-' ∉ rest := fun hr => h (by simp [hr])
    simp [splitOnDash, hc, ih hrest]

/-- Python `str.strip()`: drop leading and trailing whitespace. -/
def stripChars (l : List Char) : List Char :=
  ((l.dropWhile isPySpace).reverse.dropWhile isPySpace).reverse

/-- Iterating a Python text file yields its lines, each including its trailing
newline except possibly the last; an empty file yields no lines. -/
def splitLinesAux : List Char → List Char → List (List Char)
  | acc, [] => if acc = [] then [] else [acc.reverse]
  | acc, c :: rest =>
    if c = '\n' then (acc.reverse ++ ['\n']) :: splitLinesAux [] rest
    else splitLinesAux (c :: acc) rest

/-- Lines of a Python text file, as seen by `for l in f`. -/
def splitLines (l : List Char) : List (List Char) := splitLinesAux [] l

/-- Python `sep.join(parts)`. -/
def joinWith (sep : List Char) : List (List Char) → List Char
  | [] => []
  | x :: xs =>
    match xs with
    | [] => x
    | _ :: _ => x ++ sep ++ joinWith sep xs

/-- Number of non-overlapping matches of the regex `\r\n` found by
`re.findall` while sniffing the newline convention. -/
def countCRLF : List Char → Nat
  | '\r' :: '\n' :: rest => 1 + countCRLF rest
  | _ :: rest => countCRLF rest
  | [] => 0

/-- Number of non-overlapping matches of the regex `^\n|[^\r]\n` found by
`re.findall` (the sniffer's "lone LF" pattern): each `[^\r]\n` match consumes
two characters, so consecutive line feeds are counted pairwise.  A carriage
return can never start a match, so the scan just advances past it. -/
def countLoneLFAux : List Char → Nat
  | '\r' :: rest => countLoneLFAux rest
  | _ :: '\n' :: rest => 1 + countLoneLFAux rest
  | _ :: rest => countLoneLFAux rest
  | [] => 0

/-- Matches of the sniffer's lone-LF regex: the `^\n` alternative can fire only
at position 0, after which scanning continues with `[^\r]\n` alone. -/
def countLoneLF : List Char → Nat
  | '\n' :: rest => 1 + countLoneLFAux rest
  | l => countLoneLFAux l

/-- Python tuple `<` on the `(count, is-platform-default, candidate)` triples
built by `sniff_newline_convention` (booleans compare as the integers 0/1). -/
def tupLt (x y : Nat × Nat × List Char) : Bool :=
  x.1 < y.1 ||
    (x.1 = y.1 && (x.2.1 < y.2.1 || (x.2.1 = y.2.1 && strLt x.2.2 y.2.2)))

/-- Determine which line-ending convention predominates in the text: rank
`(count, candidate == os.linesep, candidate)` triples for CRLF and lone LF
(seeded with `(0, 1, os.linesep)`) and take the Python `max`, which keeps the
earliest of equal maxima.  `linesep` is the platform's `os.linesep`. -/
def sniff_newline_convention (linesep text : List Char) : List Char :=
  let seed : Nat × Nat × List Char := (0, 1, linesep)
  let crlfEntry : Nat × Nat × List Char :=
    (countCRLF text, if ['\r', '\n'] = linesep then 1 else 0, ['\r', '\n'])
  let lfEntry : Nat × Nat × List Char :=
    (countLoneLF text, if ['\n'] = linesep then 1 else 0, ['\n'])
  let m1 := if tupLt seed crlfEntry then crlfEntry else seed
  let m2 := if tupLt m1 lfEntry then lfEntry else m1
  m2.2.2

/-- Count of line feeds not immediately preceded by a carriage return
(including a line feed at position 0), exactly as the specification words it;
the boolean argument records whether the previous character was a CR. -/
def claimedLoneLFAux : Bool → List Char → Nat
  | _, [] => 0
  | prevCR, c :: rest =>
    (if c = '\n' ∧ prevCR = false then 1 else 0) + claimedLoneLFAux (c = '\r') rest

/-- Modelled from the spec: the per-position "lone LF" count the claim
describes, for comparison against the regex-based `countLoneLF`. -/
def claimedLoneLF (t : List Char) : Nat := claimedLoneLFAux false t

/-- The codecs the bundler can name: the three BOM-derived encodings, the
`utf-8` first fallback, and representative locale / cookie codecs.  Models the
fragment of the Python codec registry exercised by `gbundle`. -/
inductive Codec
  | utf8
  | utf8sig
  | utf16
  | ascii
  | latin1
deriving DecidableEq

/-- Strict UTF-8 decoding (CPython `bytes.decode("utf-8")`): continuation
bytes, overlong forms, surrogates and out-of-range values are rejected. -/
def decodeUtf8 : List Nat → Option (List Char)
  | [] => some []
  | b :: rest =>
    if b ≤ 0x7F then (decodeUtf8 rest).map (fun t => Char.ofNat b :: t)
    else if 0xC2 ≤ b ∧ b ≤ 0xDF then
      match rest with
      | b2 :: rest2 =>
        if 0x80 ≤ b2 ∧ b2 ≤ 0xBF then
          (decodeUtf8 rest2).map (fun t => Char.ofNat ((b - 0xC0) * 64 + (b2 - 0x80)) :: t)
        else none
      | [] => none
    else if 0xE0 ≤ b ∧ b ≤ 0xEF then
      match rest with
      | b2 :: b3 :: rest2 =>
        let cp := (b - 0xE0) * 4096 + (b2 - 0x80) * 64 + (b3 - 0x80)
        if (0x80 ≤ b2 ∧ b2 ≤ 0xBF) ∧ (0x80 ≤ b3 ∧ b3 ≤ 0xBF) ∧
            0x800 ≤ cp ∧ ¬ (0xD800 ≤ cp ∧ cp ≤ 0xDFFF) then
          (decodeUtf8 rest2).map (fun t => Char.ofNat cp :: t)
        else none
      | _ => none
    else if 0xF0 ≤ b ∧ b ≤ 0xF4 then
      match rest with
      | b2 :: b3 :: b4 :: rest2 =>
        let cp := (b - 0xF0) * 262144 + (b2 - 0x80) * 4096 + (b3 - 0x80) * 64 + (b4 - 0x80)
        if (0x80 ≤ b2 ∧ b2 ≤ 0xBF) ∧ (0x80 ≤ b3 ∧ b3 ≤ 0xBF) ∧ (0x80 ≤ b4 ∧ b4 ≤ 0xBF) ∧
            0x10000 ≤ cp ∧ cp ≤ 0x10FFFF then
          (decodeUtf8 rest2).map (fun t => Char.ofNat cp :: t)
        else none
      | _ => none
    else none

/-- ASCII decoding: every byte must be below 0x80. -/
def decodeAscii (l : List Nat) : Option (List Char) :=
  if l.all (fun b => b ≤ 0x7F) then some (l.map Char.ofNat) else none

/-- Latin-1 decoding: each byte maps directly to the code point of equal value. -/
def decodeLatin1 (l : List Nat) : Option (List Char) :=
  if l.all (fun b => b ≤ 0xFF) then some (l.map Char.ofNat) else none

/-- Combine a list of 16-bit code units into code points, pairing surrogates. -/
def decodeUtf16Units : List Nat → Option (List Char)
  | [] => some []
  | u :: rest =>
    if u < 0xD800 ∨ 0xE000 ≤ u then (decodeUtf16Units rest).map (fun t => Char.ofNat u :: t)
    else if u ≤ 0xDBFF then
      match rest with
      | u2 :: rest2 =>
        if 0xDC00 ≤ u2 ∧ u2 ≤ 0xDFFF then
          (decodeUtf16Units rest2).map
            (fun t => Char.ofNat (0x10000 + (u - 0xD800) * 1024 + (u2 - 0xDC00)) :: t)
        else none
      | [] => none
    else none

/-- Pair up bytes little-endian into 16-bit units; odd length fails. -/
def bytesToUnitsLE : List Nat → Option (List Nat)
  | [] => some []
  | [_] => none
  | a :: b :: rest => (bytesToUnitsLE rest).map (fun us => (a + 256 * b) :: us)

/-- Pair up bytes big-endian into 16-bit units; odd length fails. -/
def bytesToUnitsBE : List Nat → Option (List Nat)
  | [] => some []
  | [_] => none
  | a :: b :: rest => (bytesToUnitsBE rest).map (fun us => (256 * a + b) :: us)

/-- CPython's `utf-16` codec on a little-endian host: honour a leading BOM,
otherwise assume the native little-endian order. -/
def decodeUtf16 (l : List Nat) : Option (List Char) :=
  if l.take 2 = [0xFF, 0xFE] then (bytesToUnitsLE (l.drop 2)).bind decodeUtf16Units
  else if l.take 2 = [0xFE, 0xFF] then (bytesToUnitsBE (l.drop 2)).bind decodeUtf16Units
  else (bytesToUnitsLE l).bind decodeUtf16Units

/-- `utf-8-sig`: strip one UTF-8 byte-order mark if present, then decode UTF-8. -/
def decodeUtf8Sig (l : List Nat) : Option (List Char) :=
  if l.take 3 = [0xEF, 0xBB, 0xBF] then decodeUtf8 (l.drop 3) else decodeUtf8 l

/-- Python `btext.decode(encoding)` for the codecs in scope. -/
def decodeBytes : Codec → List Nat → Option (List Char)
  | .utf8, l => decodeUtf8 l
  | .utf8sig, l => decodeUtf8Sig l
  | .utf16, l => decodeUtf16 l
  | .ascii, l => decodeAscii l
  | .latin1, l => decodeLatin1 l

/-- Python `codecs.lookup(name)` on the registry fragment in scope: names are
normalised case-insensitively, unknown names fail (`LookupError`). -/
def lookupCodec (name : List Char) : Option Codec :=
  let n := name.map lowerChar
  if n = "ascii".toList ∨ n = "us-ascii".toList ∨ n = "us_ascii".toList then some .ascii
  else if n = "utf-8".toList ∨ n = "utf8".toList ∨ n = "utf_8".toList ∨ n = "u8".toList then
    some .utf8
  else if n = "utf-8-sig".toList ∨ n = "utf_8_sig".toList then some .utf8sig
  else if n = "utf-16".toList ∨ n = "utf16".toList ∨ n = "utf_16".toList ∨ n = "u16".toList then
    some .utf16
  else if n = "latin-1".toList ∨ n = "latin1".toList ∨ n = "latin_1".toList ∨
      n = "iso-8859-1".toList ∨ n = "iso8859-1".toList ∨ n = "8859".toList then some .latin1
  else none

/-- Binary `f.readline()`: the bytes up to and including the first `0x0A`. -/
def firstLineBytes : List Nat → List Nat
  | [] => []
  | 10 :: _ => [10]
  | b :: rest => b :: firstLineBytes rest

/-- Characters admitted in a PEP 263 cookie's codec name: `[-_.a-zA-Z0-9]`. -/
def isCookieNameChar (c : Char) : Bool :=
  c = '-' || c = '_' || c = '.' ||
    decide ('a' ≤ c ∧ c ≤ 'z') || decide ('A' ≤ c ∧ c ≤ 'Z') || decide ('0' ≤ c ∧ c ≤ '9')

/-- After `coding[:=]`: the regex tail `[ \t]*([-_.a-zA-Z0-9]+)` — skip blanks,
then require at least one codec-name character. -/
def cookieNameAfter (l : List Char) : Option (List Char) :=
  let l2 := l.dropWhile (fun c => c = ' ' || c = '\t')
  let name := l2.takeWhile isCookieNameChar
  if name = [] then none else some name

/-- Try to match `coding[:=][ \t]*([-_.a-zA-Z0-9]+)` at the head of the list. -/
def codingAt (l : List Char) : Option (List Char) :=
  match l with
  | c1 :: c2 :: c3 :: c4 :: c5 :: c6 :: sep :: rest =>
    if [c1, c2, c3, c4, c5, c6] = ['c', 'o', 'd', 'i', 'n', 'g'] ∧ (sep = ':' ∨ sep = '=') then
      cookieNameAfter rest
    else none
  | _ => none

/-- The lazy `.*?coding[:=]...` search: scan left to right without crossing a
newline (`.` does not match `\n`), returning the first full cookie match. -/
def findCoding : List Char → Option (List Char)
  | [] => none
  | c :: rest =>
    if c = '\n' then none
    else
      match codingAt (c :: rest) with
      | some name => some name
      | none => findCoding rest

/-- `ENCODING_COOKIE_RE.match(uline)`: `^[ \t\v]*#.*?coding[:=][ \t]*(name)`. -/
def matchEncodingCookie (line : List Char) : Option (List Char) :=
  match line.dropWhile (fun c => c = ' ' || c = '\t' || c = '\x0b') with
  | '#' :: rest => findCoding rest
  | _ => none

/-- Determine the encoding of a file: a BOM wins, else a recognised PEP 263
cookie on the first line (decoded with the locale's `preferred` codec), else
`none` so that `read_and_decode` tries its fallback list.  A cookie naming an
unknown codec is logged and ignored, yielding `none`. -/
def sniff_encoding (preferred : Codec) (content : List Nat) : Option Codec :=
  let line := firstLineBytes content
  if [0xEF, 0xBB, 0xBF].isPrefixOf line then some .utf8sig
  else if [0xFE, 0xFF].isPrefixOf line then some .utf16
  else if [0xFF, 0xFE].isPrefixOf line then some .utf16
  else
    match decodeBytes preferred line with
    | none => none
    | some uline =>
      match matchEncodingCookie uline with
      | none => none
      | some name => lookupCodec name

/-- Error raised when no candidate encoding decodes the file
(`UnicodeDecodeError("Unable to decode")`). -/
inductive DecodeError
  | unableToDecode
deriving DecidableEq

/-- Try each candidate encoding on the full byte content, first success wins. -/
def tryDecode : List Codec → List Nat → Option (List Char)
  | [], _ => none
  | e :: rest, content =>
    match decodeBytes e content with
    | some t => some t
    | none => tryDecode rest content

/-- `re.sub("\r\n", "\n", text)`: rewrite every (non-overlapping) CRLF pair to
a single LF; a carriage return not followed by a line feed is left in place. -/
def normalizeNewlines : List Char → List Char
  | '\r' :: '\n' :: rest => '\n' :: normalizeNewlines rest
  | c :: rest => c :: normalizeNewlines rest
  | [] => []

/-- Read and decode a file: use the sniffed encoding alone when there is one,
otherwise try `utf-8` then the locale-preferred codec; then unify newlines.
The source also sniffs the newline convention of the decoded text here but
discards the result, so that call is omitted. -/
def read_and_decode (preferred : Codec) (content : List Nat) :
    Except DecodeError (List Char) :=
  let candidate_encodings :=
    match sniff_encoding preferred content with
    | some e => [e]
    | none => [Codec.utf8, preferred]
  match tryDecode candidate_encodings content with
  | some text => .ok (normalizeNewlines text)
  | none => .error .unableToDecode

deriving instance DecidableEq for Except

/-- Regex tail `\s*\n` with greedy backtracking: consume through the last line
feed of the maximal leading whitespace run, failing if the run has none. -/
def matchSpacesThenNl : List Char → Option (List Char)
  | [] => none
  | c :: rest =>
    if isPySpace c then
      match matchSpacesThenNl rest with
      | some r => some r
      | none => if c = '\n' then some rest else none
    else none

/-- Regex fragment `GO\s*\n` (case-insensitive), anchored at the head. -/
def matchGoTail (l : List Char) : Option (List Char) :=
  match l with
  | g :: o :: rest =>
    if lowerChar g = 'g' ∧ lowerChar o = 'o' then matchSpacesThenNl rest else none
  | _ => none

/-- Regex fragment `.*\n`: since `.` cannot match a newline, the greedy star
stops at the first line feed, which is then consumed. -/
def afterDotStarNl : List Char → Option (List Char)
  | [] => none
  | c :: rest => if c = '\n' then some rest else afterDotStarNl rest

/-- Backtracking over the `\s+` of `USE\s+.*\nGO\s*\n`: try consuming `j`
whitespace characters (largest first, down to one), then `.*\nGO\s*\n`. -/
def useGoAfterSpaces : Nat → List Char → Option (List Char)
  | 0, _ => none
  | j + 1, l =>
    match afterDotStarNl (l.drop (j + 1)) with
    | some r =>
      match matchGoTail r with
      | some r2 => some r2
      | none => useGoAfterSpaces j l
    | none => useGoAfterSpaces j l

/-- Regex tail `\s+.*\nGO\s*\n` anchored at the head of `l`. -/
def matchUseTail (l : List Char) : Option (List Char) :=
  useGoAfterSpaces (l.takeWhile isPySpace).length l

/-- Regex `USE\s+.*\nGO\s*\n` (case-insensitive) anchored at the head of `l`,
returning the remainder after the match. -/
def matchUseGo (l : List Char) : Option (List Char) :=
  match l with
  | u :: s :: e :: rest =>
    if lowerChar u = 'u' ∧ lowerChar s = 's' ∧ lowerChar e = 'e' then matchUseTail rest
    else none
  | _ => none

theorem matchSpacesThenNl_length (l r : List Char) (h : matchSpacesThenNl l = some r) :
    r.length < l.length := by
  induction l generalizing r with
  | nil => simp [matchSpacesThenNl] at h
  | cons c rest ih =>
    simp only [matchSpacesThenNl] at h
    by_cases hs : isPySpace c = true
    · simp only [hs, if_true] at h
      cases hrec : matchSpacesThenNl rest with
      | some r2 =>
        rw [hrec] at h
        cases h
        have := ih _ hrec
        simp only [List.length_cons]
        omega
      | none =>
        rw [hrec] at h
        by_cases hn : c = '\n'
        · simp only [hn, if_true] at h
          cases h
          simp
        · simp [hn] at h
    · simp [hs] at h

theorem matchGoTail_length (l r : List Char) (h : matchGoTail l = some r) :
    r.length < l.length := by
  match l with
  | [] => simp [matchGoTail] at h
  | [g] => simp [matchGoTail] at h
  | g :: o :: rest =>
    simp only [matchGoTail] at h
    by_cases hg : lowerChar g = 'g' ∧ lowerChar o = 'o'
    · simp only [hg, if_true] at h
      have := matchSpacesThenNl_length rest r h
      simp only [List.length_cons]
      omega
    · simp [hg] at h

theorem afterDotStarNl_length (l r : List Char) (h : afterDotStarNl l = some r) :
    r.length < l.length := by
  induction l generalizing r with
  | nil => simp [afterDotStarNl] at h
  | cons c rest ih =>
    simp only [afterDotStarNl] at h
    by_cases hn : c = '\n'
    · simp only [hn, if_true] at h
      cases h
      simp
    · simp only [hn, if_false] at h
      have := ih _ h
      simp only [List.length_cons]
      omega

theorem useGoAfterSpaces_length (j : Nat) (l r : List Char)
    (h : useGoAfterSpaces j l = some r) : r.length < l.length := by
  induction j generalizing r with
  | zero => simp [useGoAfterSpaces] at h
  | succ j ih =>
    simp only [useGoAfterSpaces] at h
    cases hd : afterDotStarNl (l.drop (j + 1)) with
    | some r1 =>
      simp only [hd] at h
      cases hg : matchGoTail r1 with
      | some r2 =>
        simp only [hg] at h
        cases h
        have h1 := afterDotStarNl_length _ _ hd
        have h2 := matchGoTail_length _ _ hg
        have h3 : (l.drop (j + 1)).length ≤ l.length := by
          simp [List.length_drop]
        omega
      | none =>
        simp only [hg] at h
        exact ih _ h
    | none =>
      simp only [hd] at h
      exact ih _ h

theorem matchUseGo_length (l r : List Char) (h : matchUseGo l = some r) :
    r.length < l.length := by
  match l with
  | [] => simp [matchUseGo] at h
  | [u] => simp [matchUseGo] at h
  | [u, s] => simp [matchUseGo] at h
  | u :: s :: e :: rest =>
    simp only [matchUseGo] at h
    by_cases hu : lowerChar u = 'u' ∧ lowerChar s = 's' ∧ lowerChar e = 'e'
    · simp only [hu, if_true] at h
      have := useGoAfterSpaces_length _ _ _ h
      simp only [List.length_cons]
      omega
    · simp [hu] at h

/-- Scanning phase of `re.sub((?:\n|^)USE\s+.*\nGO\s*\n, "", text)` at
positions past the start of the string: only the `\n` alternative can fire.
The scan shortens the text at every step (`matchUseGo` consumes at least one
character, see `matchUseGo_length`), so a fuel of one more than the text
length is always sufficient; the fuel only makes the recursion structural. -/
def stripUseGoScanFuel : Nat → List Char → List Char
  | 0, l => l
  | _ + 1, [] => []
  | f + 1, '\n' :: rest =>
    (match matchUseGo rest with
     | some r => stripUseGoScanFuel f r
     | none => '\n' :: stripUseGoScanFuel f rest)
  | f + 1, c :: rest => c :: stripUseGoScanFuel f rest

/-- Scanning with the always-sufficient fuel. -/
def stripUseGoScan (l : List Char) : List Char :=
  stripUseGoScanFuel (l.length + 1) l

/-- The full `re.sub(r"(?:\n|^)USE\s+.*\nGO\s*\n", "", text, flags=re.IGNORECASE)`
applied by `generate_file_contents`: at position 0 both alternatives of
`(?:\n|^)` are available, afterwards the scan proceeds one match at a time. -/
def stripUseGo (l : List Char) : List Char :=
  match matchUseGo l with
  | some r => stripUseGoScan r
  | none =>
    match l with
    | [] => []
    | c :: rest => if c = '\n' then stripUseGoScan (c :: rest) else c :: stripUseGoScan rest

/-- The single-quote character used when the prologue and epilogue embed
names into T-SQL string literals. -/
def sq : Char := Char.ofNat 39

/-- The guard statement yielded third (or fourth) by `generate_prologue`;
its text is fixed, with no interpolated values. -/
def guardLineText : List Char :=
  "IF @v_release_bundle < @v_current_bundle THROW 51000, ".toList ++
    sq :: "The incoming release bundle is older than the last one applied. Use @i_override_newer to override".toList ++
    sq :: ", 1;\n".toList

/-- The lines yielded by `generate_prologue(release_type, bundle_name,
database_name)`: an optional `USE` directive, the two `DECLARE` lines, and the
monotonicity guard. -/
def generate_prologue (release_type bundle_name : List Char)
    (database_name : Option (List Char)) : List (List Char) :=
  (match database_name with
   | some db => ["USE ".toList ++ db ++ "\nGO\n".toList]
   | none => []) ++
  ["DECLARE @v_release_bundle VARCHAR(60) = ".toList ++ sq :: bundle_name ++ [sq, ';'],
   "DECLARE @v_current_bundle VARCHAR(60) = release.fn_release_bundle(".toList ++
     sq :: release_type ++ [sq, ')', ';'],
   guardLineText]

/-- Semantics of the emitted guard `IF @v_release_bundle < @v_current_bundle
THROW ...` under plain (collation-free) string comparison: the fatal engine
error is raised exactly when this comparison holds at apply time. -/
def prologue_guard_fires (bundle_name current_bundle : List Char) : Bool :=
  strLt bundle_name current_bundle

/-- The single line yielded by `generate_epilogue(release_type, bundle_name)`. -/
def generate_epilogue (release_type bundle_name : List Char) : List (List Char) :=
  ["EXEC release.pr_tag_release_bundle @i_release_type = ".toList ++
    sq :: release_type ++ sq :: ", @i_release_bundle = ".toList ++
    sq :: bundle_name ++ [sq, ';']]

/-- The single line yielded by `generate_separator()`. -/
def generate_separator : List (List Char) := ["GO\n".toList]

/-- Shell-style glob matching with fuel: every recursive call shrinks the
combined length of pattern and string, so a fuel of one more than that sum is
always sufficient; the fuel only makes the recursion structural. -/
def globMatchFuel : Nat → List Char → List Char → Bool
  | 0, _, _ => false
  | _ + 1, [], [] => true
  | _ + 1, [], _ :: _ => false
  | f + 1, '*' :: ps, [] => globMatchFuel f ps []
  | f + 1, '*' :: ps, c :: ss => globMatchFuel f ps (c :: ss) || globMatchFuel f ('*' :: ps) ss
  | f + 1, '?' :: ps, _ :: ss => globMatchFuel f ps ss
  | _ + 1, _ :: _, [] => false
  | f + 1, p :: ps, c :: ss => (p = c) && globMatchFuel f ps ss

/-- Shell-style glob matching of `fnmatch.fnmatch` on a posix host, for the
`*`, `?` and literal pattern forms the bundler uses (its patterns contain no
bracket classes). -/
def globMatch (p s : List Char) : Bool :=
  globMatchFuel (p.length + s.length + 1) p s

/-- Python `sorted` over the scoped relative paths (unique sorted order under
the lexicographic path comparison). -/
def sortedPaths (l : List (List Char)) : List (List Char) :=
  List.insertionSort pathLe l

/-- The comment banner written before each file section:
`f"--\n-- {relpath}\n--\n"`. -/
def fileBanner (relpath : List Char) : List Char :=
  "--\n-- ".toList ++ relpath ++ "\n--\n".toList

/-- The separator chunk written after the prologue, each file section and the
epilogue: `"\n".join(generate_separator()) + "\n"`. -/
def separatorChunk : List Char := joinWith ['\n'] generate_separator ++ ['\n']

/-- Errors surfacing from bundle assembly: a file that no candidate encoding
can decode. -/
inductive BundleError
  | decode
deriving DecidableEq

/-- `generate_file_contents(filepath)`: decode and normalize the file, then
strip `USE ... GO` directive pairs. -/
def generate_file_contents (preferred : Codec) (content : List Nat) :
    Except DecodeError (List Char) :=
  (read_and_decode preferred content).map stripUseGo

/-- The per-file loop of `create_release_bundle` over the sorted path list:
paths not matching the code pattern are skipped, paths absent from the working
tree (`tree relpath = none`) are skipped, and each remaining file contributes
its banner, its stripped normalized content plus one newline, and a separator.
A file that fails to decode aborts the loop with only its banner written
(the banner write precedes the failing read). -/
def writeSections (preferred : Codec) (tree : List Char → Option (List Nat))
    (code_pattern : List Char) : List (List Char) → List Char × Option BundleError
  | [] => ([], none)
  | relpath :: rest =>
    if globMatch code_pattern relpath then
      match tree relpath with
      | some content =>
        match generate_file_contents preferred content with
        | .error _ => (fileBanner relpath, some .decode)
        | .ok body =>
          let restResult := writeSections preferred tree code_pattern rest
          (fileBanner relpath ++ (body ++ ['\n']) ++ separatorChunk ++ restResult.1,
            restResult.2)
      | none => writeSections preferred tree code_pattern rest
    else writeSections preferred tree code_pattern rest

/-- `create_release_bundle`: open the destination and stream out the prologue,
a separator, the per-file sections in sorted path order, then the epilogue and
a final separator.  The returned text is everything written to the destination
file before the run finished or aborted; the error component reports a decode
failure, in which case the epilogue is never written but the text already
written (prologue and earlier sections) remains on disk. -/
def create_release_bundle (preferred : Codec) (database_name : Option (List Char))
    (release_type bundle_name : List Char) (tree : List Char → Option (List Nat))
    (rel_filepaths : List (List Char)) (code_pattern : List Char) :
    List Char × Option BundleError :=
  let prologueChunk :=
    joinWith ['\n'] (generate_prologue release_type bundle_name database_name) ++ ['\n']
  let sections := writeSections preferred tree code_pattern (sortedPaths rel_filepaths)
  match sections.2 with
  | some e => (prologueChunk ++ separatorChunk ++ sections.1, some e)
  | none =>
    let epilogueChunk := joinWith ['n'] (generate_epilogue release_type bundle_name) ++ ['\n']
    (prologueChunk ++ separatorChunk ++ sections.1 ++ epilogueChunk ++ separatorChunk, none)

/-- Parse the ledger's latest bundle name to find the last commit applied:
a falsy (absent or empty) name yields nothing, a name that does not split on
hyphens into exactly three fields is logged and yields nothing, otherwise the
third field is returned. -/
def get_latest_commit_sha_from_db (bundle_name : Option (List Char)) :
    Option (List Char) :=
  match bundle_name with
  | none => none
  | some bn =>
    if bn = [] then none
    else
      match splitOnDash bn with
      | [_, _, to_commit] => some to_commit
      | _ => none

/-- The repository capability as the resolver needs it: reference resolution
(`repo.commit`), the earliest commit on the branch and the branch tip. -/
structure RepoEnv (C : Type) where
  resolveRef : List Char → C
  earliest : C
  latest : C

/-- Resolution of the `from` commit in `main`: the explicit reference wins;
else, with a database at hand, a truthy sha parsed from the ledger's bundle
name is resolved; else the earliest commit on the branch.  `db = none` means
no database connection; `db = some b` carries the ledger's bundle name. -/
def resolve_from_commit {C : Type} (repo : RepoEnv C) (explicit : Option (List Char))
    (db : Option (Option (List Char))) : C :=
  match explicit with
  | some ref => repo.resolveRef ref
  | none =>
    match db with
    | some bundle_name =>
      match get_latest_commit_sha_from_db bundle_name with
      | some sha => if sha ≠ [] then repo.resolveRef sha else repo.earliest
      | none => repo.earliest
    | none => repo.earliest

/-- Resolution of the `to` commit in `main`: the explicit reference wins, else
the branch tip. -/
def resolve_to_commit {C : Type} (repo : RepoEnv C) (explicit : Option (List Char)) : C :=
  match explicit with
  | some ref => repo.resolveRef ref
  | none => repo.latest

/-- `get_short_sha`: git's shortened form of a commit sha at length 8,
modelled as the 8-character prefix (the unambiguous case). -/
def get_short_sha (hexsha : List Char) : List Char := hexsha.take 8

/-- `get_bundle_name`: tag and shortened first/last commit shas joined by
hyphens. -/
def get_bundle_name (release_tag from_sha to_sha : List Char) : List Char :=
  release_tag ++ ['-'] ++ get_short_sha from_sha ++ ['-'] ++ get_short_sha to_sha

/-- Decimal rendering of `n` left-padded with zeros to width `w`, as the
zero-padded fields of `time.strftime` produce. -/
def padZeros (w n : Nat) : List Char :=
  let ds := Nat.toDigits 10 n
  List.replicate (w - ds.length) '0' ++ ds

/-- The default release tag generated when none is supplied:
`time.strftime("%Y%m%d-%H%M%S")` at the current local time. -/
def default_release_tag (year month day hour minute second : Nat) : List Char :=
  padZeros 4 year ++ padZeros 2 month ++ padZeros 2 day ++ ['-'] ++
    padZeros 2 hour ++ padZeros 2 minute ++ padZeros 2 second

/-- The wall-clock instant `main` reads when defaulting the release tag. -/
structure Timestamp where
  year : Nat
  month : Nat
  day : Nat
  hour : Nat
  minute : Nat
  second : Nat

/-- Resolution of the explicit file list: `[l.strip() for l in f]` — the
whitespace-trimmed lines, in order, with duplicates kept and with no glob or
existence filtering. -/
def resolve_file_list (content : List Char) : List (List Char) :=
  (splitLines content).map stripChars

/-- Errors that abort a `main` run before or during bundle creation. -/
inductive RunError
  | ambiguousRange
  | missingReleaseDir
  | decode
deriving DecidableEq

/-- Everything `main` observes from its collaborators: the repository, the
commit-to-sha map, the optional database (carrying the ledger's last bundle
name), the working tree at the checked-out commit, the diff path set (in some
iteration order), the optional explicit file list, and whether the releases
directory exists. -/
structure MainEnv (C : Type) where
  repo : RepoEnv C
  hexsha : C → List Char
  database_name : Option (List Char)
  db : Option (Option (List Char))
  tree : List Char → Option (List Nat)
  diff_filepaths : List (List Char)
  files_list : Option (List Char)
  releases_dir_exists : Bool
  preferred : Codec

/-- The `main` pipeline: default the tag, resolve the commit range, reject an
empty range, resolve the file set, check the releases directory, name the
bundle and assemble it.  Returns the bundle file written (name and content),
if any, together with the error that aborted the run, if any. -/
def main_run {C : Type} [DecidableEq C] (env : MainEnv C) (now : Timestamp)
    (release_tag : List Char) (release_type : List Char)
    (from_ref to_ref : Option (List Char)) (code_pattern : List Char) :
    Option (List Char × List Char) × Option RunError :=
  let tag :=
    if release_tag = [] then
      default_release_tag now.year now.month now.day now.hour now.minute now.second
    else release_tag
  let from_commit := resolve_from_commit env.repo from_ref env.db
  let to_commit := resolve_to_commit env.repo to_ref
  if from_commit = to_commit then (none, some .ambiguousRange)
  else
    let rel_filepaths :=
      match env.files_list with
      | some content => resolve_file_list content
      | none => env.diff_filepaths
    if env.releases_dir_exists = false then (none, some .missingReleaseDir)
    else
      let bundle_name :=
        get_bundle_name tag (env.hexsha from_commit) (env.hexsha to_commit)
      let bundle_filename := bundle_name ++ ".sql".toList
      let made := create_release_bundle env.preferred env.database_name release_type
        bundle_name env.tree rel_filepaths code_pattern
      (some (bundle_filename, made.1), made.2.map (fun _ => RunError.decode))

/-- Statement device: text in which every carriage return is immediately
followed by a line feed (no "lone CR"). -/
def crOnlyInCrlf : List Char → Bool
  | '\r' :: '\n' :: rest => crOnlyInCrlf rest
  | '\r' :: _ => false
  | _ :: rest => crOnlyInCrlf rest
  | [] => true

/-- Statement device: a lower-case hexadecimal digit, the alphabet of git
commit shas. -/
def isLowerHexDigit (c : Char) : Bool :=
  decide ('0' ≤ c ∧ c ≤ '9') || decide ('a' ≤ c ∧ c ≤ 'f')

/-- Statement device: a file whose lines are exactly `ls`, each terminated by
a newline. -/
def joinLinesNl (ls : List (List Char)) : List Char :=
  ls.foldr (fun l acc => l ++ '\n' :: acc) []

/-- Test vector: a file whose first line carries a recognised `ascii`
encoding cookie while its body holds the UTF-8 encoding of an accented
character, so the cookie's codec cannot decode it but UTF-8 can. -/
def cookieAsciiFixture : List Nat :=
  ("# coding: ascii".toList.map Char.toNat) ++ [10, 0xC3, 0xA9, 10]

/-- Test fixture: a repository over `Nat` commits where the reference `"a"`
resolves to commit 1 and every other reference to commit 2; the earliest
commit is 0 and the branch tip is 3. -/
def fixtureRepo : RepoEnv Nat where
  resolveRef := fun r => if r = "a".toList then 1 else 2
  earliest := 0
  latest := 3

/-- Test fixture: the assembler's surroundings with a single scoped file
`x.sql` whose content `0xFF` no candidate encoding can decode. -/
def decodeFailEnv : MainEnv Nat where
  repo := fixtureRepo
  hexsha := fun c => if c = 1 then "aaaaaaaa".toList else "bbbbbbbb".toList
  database_name := none
  db := none
  tree := fun p => if p = "x.sql".toList then some [0xFF] else none
  diff_filepaths := ["x.sql".toList]
  files_list := none
  releases_dir_exists := true
  preferred := Codec.utf8

/-- Test fixture: the wall clock at 2026-01-01 00:00:00. -/
def fixtureNow : Timestamp where
  year := 2026
  month := 1
  day := 1
  hour := 0
  minute := 0
  second := 0

/-- Test fixture: a working tree holding two decodable SQL files. -/
def twoFileTree (p : List Char) : Option (List Nat) :=
  if p = "b.sql".toList then some [0x55, 0x31, 10] else some [0x56, 10]

/-! ### Helper lemmas -/

theorem take_no_dash (l : List Char) (n : Nat)
    (h : ∀ c ∈ l, isLowerHexDigit c = true) : '-' ∉ l.take n := by
  intro hmem
  have := h '-' (List.mem_of_mem_take hmem)
  simp [isLowerHexDigit] at this

theorem get_bundle_name_split (tag f8 t8 : List Char) (htag : '-' ∉ tag)
    (hf : '-' ∉ f8) (ht : '-' ∉ t8) :
    splitOnDash (tag ++ ['-'] ++ f8 ++ ['-'] ++ t8) = [tag, f8, t8] := by
  have : tag ++ ['-'] ++ f8 ++ ['-'] ++ t8 = tag ++ '-' :: (f8 ++ '-' :: t8) := by
    simp [List.append_assoc]
  rw [this, splitOnDash_append _ _ htag, splitOnDash_append _ _ hf,
    splitOnDash_no_dash _ ht]

/-! ### Claim C2 — the prologue guard -/

/-- Claim C2 counterexample: when the currently recorded bundle name equals
the new one, the recorded name compares `≥` the new one, yet the emitted guard
`IF @v_release_bundle < @v_current_bundle` does not fire — the claim's
"equal names also trigger the guard" is false. -/
theorem claim_C2_counterexample :
    strLe ['A'] ['A'] = true ∧ prologue_guard_fires ['A'] ['A'] = false := by
  decide

/-- Claim C2 (amended): the last prologue line is the fixed guard statement,
and the guard raises exactly when the currently recorded bundle name compares
lexicographically strictly greater than the new one — equal names do not
trigger it. -/
theorem claim_C2 (release_type bundle_name current_bundle : List Char)
    (database_name : Option (List Char)) :
    (generate_prologue release_type bundle_name database_name).getLast? =
      some guardLineText ∧
    (prologue_guard_fires bundle_name current_bundle = true ↔
      (current_bundle ≠ bundle_name ∧ strLt current_bundle bundle_name = false)) := by
  constructor
  · cases database_name <;> rfl
  · constructor
    · intro h
      exact ⟨fun he => (strLt_ne _ _ h) he.symm, strLt_asymm _ _ h⟩
    · rintro ⟨hne, hnlt⟩
      rcases strLt_total bundle_name current_bundle (fun he => hne he.symm) with h | h
      · exact h
      · rw [hnlt] at h
        exact absurd h (by simp)

/-! ### Claim C5 — the bundle-name grammar -/

/-- Claim C5 counterexample: the generated default release tag is
`%Y%m%d-%H%M%S`, which itself contains a hyphen, so the bundle name built
from it splits on `-` into four fields, not 3. -/
theorem claim_C5_counterexample :
    default_release_tag 2026 1 1 0 0 0 = "20260101-000000".toList ∧
    (splitOnDash (get_bundle_name (default_release_tag 2026 1 1 0 0 0)
      (List.replicate 40 'a') (List.replicate 40 'b'))).length = 4 := by
  decide

/-- Claim C5 (amended): for every hyphen-free tag and 40-character lower-case
hex commit shas, the bundle name splits on `-` into exactly three fields: the
tag (empty exactly when the tag is empty) and the two 8-character lower-case
hex short hashes.  The generated timestamp default tag contains a hyphen and
falls outside this guarantee. -/
theorem claim_C5 (tag from_sha to_sha : List Char) (htag : '-' ∉ tag)
    (hf : ∀ c ∈ from_sha, isLowerHexDigit c = true)
    (ht : ∀ c ∈ to_sha, isLowerHexDigit c = true)
    (hfl : 8 ≤ from_sha.length) (htl : 8 ≤ to_sha.length) :
    splitOnDash (get_bundle_name tag from_sha to_sha) =
      [tag, from_sha.take 8, to_sha.take 8] ∧
    (from_sha.take 8).length = 8 ∧ (to_sha.take 8).length = 8 ∧
    (∀ c ∈ from_sha.take 8, isLowerHexDigit c = true) ∧
    (∀ c ∈ to_sha.take 8, isLowerHexDigit c = true) := by
  refine ⟨?_, ?_, ?_, ?_, ?_⟩
  · exact get_bundle_name_split tag _ _ htag (take_no_dash _ _ hf) (take_no_dash _ _ ht)
  · rw [List.length_take]; omega
  · rw [List.length_take]; omega
  · exact fun c hc => hf c (List.mem_of_mem_take hc)
  · exact fun c hc => ht c (List.mem_of_mem_take hc)

/-- Claim C5 witness: the amended statement at the tag `REL1` and two
concrete 40-character shas. -/
theorem claim_C5_witness :
    splitOnDash (get_bundle_name ("REL1".toList) (List.replicate 40 'a')
      (List.replicate 40 'b')) =
      ["REL1".toList, (List.replicate 40 'a').take 8, (List.replicate 40 'b').take 8] ∧
    ((List.replicate 40 'a').take 8).length = 8 ∧
    ((List.replicate 40 'b').take 8).length = 8 ∧
    (∀ c ∈ (List.replicate 40 'a').take 8, isLowerHexDigit c = true) ∧
    (∀ c ∈ (List.replicate 40 'b').take 8, isLowerHexDigit c = true) :=
  claim_C5 _ _ _ (by decide) (by decide) (by decide) (by decide) (by decide)

/-! ### Claim C7 — the equal-range hard stop -/

/-- Claim C7: whenever the resolved from-commit equals the resolved
to-commit — whether both were explicit or came from fallback resolution — the
run stops with the ambiguous-range error and no bundle file is produced. -/
theorem claim_C7 {C : Type} [DecidableEq C] (env : MainEnv C) (now : Timestamp)
    (release_tag release_type : List Char) (from_ref to_ref : Option (List Char))
    (code_pattern : List Char)
    (h : resolve_from_commit env.repo from_ref env.db =
      resolve_to_commit env.repo to_ref) :
    main_run env now release_tag release_type from_ref to_ref code_pattern =
      (none, some RunError.ambiguousRange) := by
  simp [main_run, h]

/-- Claim C7 witness: with the explicit references `"a"` and `"a"` both
resolving to commit 1, the run aborts with the ambiguous-range error. -/
theorem claim_C7_witness :
    main_run decodeFailEnv fixtureNow ("v".toList) ("t".toList)
      (some ("a".toList)) (some ("a".toList)) ("*.sql".toList) =
      (none, some RunError.ambiguousRange) :=
  claim_C7 decodeFailEnv fixtureNow _ _ _ _ _ (by decide)

/-! ### Claim C9 — deterministic assembly -/

/-- Claim C9: the bundle text depends only on the set of scoped paths, not on
the iteration order in which the diff produced them: two assembler runs over
permuted path lists (same commit-derived bundle name, same file contents)
yield byte-identical output. -/
theorem claim_C9 (preferred : Codec) (database_name : Option (List Char))
    (release_type bundle_name : List Char) (tree : List Char → Option (List Nat))
    (code_pattern : List Char) (paths1 paths2 : List (List Char))
    (h : paths1.Perm paths2) :
    create_release_bundle preferred database_name release_type bundle_name tree
      paths1 code_pattern =
    create_release_bundle preferred database_name release_type bundle_name tree
      paths2 code_pattern := by
  have hs : sortedPaths paths1 = sortedPaths paths2 := by
    refine List.eq_of_perm_of_sorted (r := pathLe) ?_ ?_ ?_
    · exact (List.perm_insertionSort pathLe paths1).trans
        (h.trans (List.perm_insertionSort pathLe paths2).symm)
    · exact List.sorted_insertionSort pathLe paths1
    · exact List.sorted_insertionSort pathLe paths2
  simp only [create_release_bundle, hs]

/-- Claim C9 witness: the two iteration orders of the diff set
`{a.sql, b.sql}` produce the same bundle text. -/
theorem claim_C9_witness :
    create_release_bundle Codec.utf8 none ("t".toList) ("n".toList) twoFileTree
      ["b.sql".toList, "a.sql".toList] ("*.sql".toList) =
    create_release_bundle Codec.utf8 none ("t".toList) ("n".toList) twoFileTree
      ["a.sql".toList, "b.sql".toList] ("*.sql".toList) :=
  claim_C9 _ _ _ _ _ _ _ _ (by decide)

/-! ### Claim C10 — a sniffed encoding forecloses the fallback list -/

/-- Claim C10: when encoding sniffing yields a codec (from a BOM or a
recognised cookie), decoding attempts only that codec on the full content and
the UTF-8/locale fallback list is never consulted; consequently the fixture
file with an `ascii` cookie and a UTF-8 body fails with the decode error even
though the UTF-8 fallback would have decoded it. -/
theorem claim_C10 :
    (∀ (preferred : Codec) (content : List Nat) (e : Codec),
      sniff_encoding preferred content = some e →
      read_and_decode preferred content =
        (match decodeBytes e content with
         | some t => Except.ok (normalizeNewlines t)
         | none => Except.error DecodeError.unableToDecode)) ∧
    (sniff_encoding Codec.utf8 cookieAsciiFixture = some Codec.ascii ∧
     read_and_decode Codec.utf8 cookieAsciiFixture =
       Except.error DecodeError.unableToDecode ∧
     (decodeBytes Codec.utf8 cookieAsciiFixture).isSome = true) := by
  constructor
  · intro preferred content e h
    simp only [read_and_decode, h, tryDecode]
    cases hd : decodeBytes e content <;> simp [hd]
  · refine ⟨by decide, by decide, by decide⟩

/-- Claim C10 witness: the universal half applied to the cookie fixture,
whose sniffed codec is `ascii`. -/
theorem claim_C10_witness :
    read_and_decode Codec.utf8 cookieAsciiFixture =
      (match decodeBytes Codec.ascii cookieAsciiFixture with
       | some t => Except.ok (normalizeNewlines t)
       | none => Except.error DecodeError.unableToDecode) :=
  claim_C10.1 Codec.utf8 cookieAsciiFixture Codec.ascii (by decide)

/-! ### Claim C6 — ledger-driven from-commit resolution -/

/-- Claim C6 counterexample: the ledger value `"a-b-"` hyphen-splits into
exactly three fields, but because its third field is empty the resolver falls
through to the earliest commit (0) instead of resolving the empty sha (which
this repository maps to commit 5). -/
theorem claim_C6_counterexample :
    (splitOnDash ("a-b-".toList)).length = 3 ∧
    resolve_from_commit (RepoEnv.mk (fun r => if r = [] then (5 : Nat) else 7) 0 1)
      none (some (some ("a-b-".toList))) = 0 ∧
    (RepoEnv.mk (fun r => if r = [] then (5 : Nat) else 7) 0 1).resolveRef [] = 5 := by
  decide

/-- Claim C6 (amended): with no explicit from-commit and a database at hand,
a ledger bundle name that splits into exactly three fields with a non-empty
third field resolves the from-commit to that third field; an absent ledger
value, a value that does not split into three fields, or one whose third
field is empty falls through to the earliest commit on the branch. -/
theorem claim_C6 {C : Type} (repo : RepoEnv C) :
    (∀ bn tag f t : List Char, bn ≠ [] → splitOnDash bn = [tag, f, t] → t ≠ [] →
      resolve_from_commit repo none (some (some bn)) = repo.resolveRef t) ∧
    (resolve_from_commit repo none (some none) = repo.earliest) ∧
    (∀ bn : List Char, (splitOnDash bn).length ≠ 3 →
      resolve_from_commit repo none (some (some bn)) = repo.earliest) := by
  refine ⟨?_, rfl, ?_⟩
  · intro bn tag f t hbn hsp ht
    simp [resolve_from_commit, get_latest_commit_sha_from_db, hbn, hsp, ht]
  · intro bn hlen
    by_cases hbn : bn = []
    · subst hbn; rfl
    · simp only [resolve_from_commit, get_latest_commit_sha_from_db, if_neg hbn]
      cases hsp : splitOnDash bn with
      | nil => simp
      | cons a t1 =>
        cases t1 with
        | nil => simp
        | cons b t2 =>
          cases t2 with
          | nil => simp
          | cons c t3 =>
            cases t3 with
            | nil => exact absurd (by rw [hsp]; rfl) hlen
            | cons d t4 => simp

/-- Claim C6 witness: the amended statement at the parsable ledger entry
`R-aaaa1111-bbbb2222`, whose third field resolves the from-commit. -/
theorem claim_C6_witness :
    resolve_from_commit fixtureRepo none (some (some ("R-aaaa1111-bbbb2222".toList))) =
      fixtureRepo.resolveRef ("bbbb2222".toList) :=
  (claim_C6 fixtureRepo).1 ("R-aaaa1111-bbbb2222".toList) ("R".toList)
    ("aaaa1111".toList) ("bbbb2222".toList) (by decide) (by decide) (by decide)

/-! ### Claim C1 — a decode failure aborts the build but leaves a partial file -/

/-- When the per-file loop fails, the scoped path list splits around a unique
failing file: every path before it was processed without error (its sections
are the loop's output on that prefix), the failing file matches the pattern,
exists in the tree, and fails to decode, and the written output is exactly
those earlier sections followed by the failing file's banner — the failing
file's body, all later sections, and anything after are unwritten. -/
theorem writeSections_error (preferred : Codec) (tree : List Char → Option (List Nat))
    (code_pattern : List Char) (paths : List (List Char)) (out : List Char)
    (e : BundleError)
    (h : writeSections preferred tree code_pattern paths = (out, some e)) :
    ∃ pre relpath post, paths = pre ++ relpath :: post ∧
      (writeSections preferred tree code_pattern pre).2 = none ∧
      globMatch code_pattern relpath = true ∧
      (∃ content, tree relpath = some content ∧
        generate_file_contents preferred content =
          Except.error DecodeError.unableToDecode) ∧
      out = (writeSections preferred tree code_pattern pre).1 ++ fileBanner relpath := by
  induction paths generalizing out with
  | nil => simp [writeSections] at h
  | cons relpath rest ih =>
    simp only [writeSections] at h
    by_cases hg : globMatch code_pattern relpath = true
    · rw [if_pos hg] at h
      cases ht : tree relpath with
      | none =>
        simp only [ht] at h
        obtain ⟨pre, f, post, h1, h2, h3, h4, h5⟩ := ih _ h
        exact ⟨relpath :: pre, f, post, by rw [List.cons_append, h1],
          by simp [writeSections, hg, ht, h2], h3, h4,
          by simp [writeSections, hg, ht, h5]⟩
      | some content =>
        simp only [ht] at h
        cases hgen : generate_file_contents preferred content with
        | error err =>
          simp only [hgen] at h
          rw [Prod.mk.injEq] at h
          cases err
          refine ⟨[], relpath, rest, rfl, rfl, hg, ⟨content, ht, hgen⟩, ?_⟩
          rw [← h.1]
          simp [writeSections]
        | ok body =>
          simp only [hgen] at h
          rw [Prod.mk.injEq] at h
          obtain ⟨hout, hsnd⟩ := h
          have h2 : writeSections preferred tree code_pattern rest =
              ((writeSections preferred tree code_pattern rest).1, some e) := by
            rw [← hsnd]
          obtain ⟨pre, f, post, h1, hpre2, h3, h4, h5⟩ := ih _ h2
          refine ⟨relpath :: pre, f, post, by rw [List.cons_append, h1],
            ?_, h3, h4, ?_⟩
          · simp [writeSections, hg, ht, hgen, hpre2]
          · rw [← hout, h5]
            simp [writeSections, hg, ht, hgen, List.append_assoc]
    · rw [if_neg hg] at h
      obtain ⟨pre, f, post, h1, h2, h3, h4, h5⟩ := ih _ h
      exact ⟨relpath :: pre, f, post, by rw [List.cons_append, h1],
        by simp [writeSections, hg, h2], h3, h4,
        by simp [writeSections, hg, h5]⟩

set_option maxRecDepth 8192 in
/-- Claim C1 counterexample: with a single scoped file `x.sql` whose bytes no
candidate encoding decodes, the run reports the decode error, yet the bundle
file for this run exists in the destination and its content is exactly the
rendered prologue, the separator and the failing file's banner — the failing
file's body, any later sections and the epilogue are absent, contradicting
"the output directory contains no bundle file for this run". -/
theorem claim_C1_counterexample :
    main_run decodeFailEnv fixtureNow ("v".toList) ("t".toList) (some ("a".toList))
      (some ("b".toList)) ("*.sql".toList) =
      (some ("v-aaaaaaaa-bbbbbbbb.sql".toList,
        joinWith ['\n'] (generate_prologue ("t".toList)
          ("v-aaaaaaaa-bbbbbbbb".toList) none) ++ ['\n'] ++ separatorChunk ++
          fileBanner ("x.sql".toList)),
       some RunError.decode) := by
  decide

/-- Claim C1 (amended): when the build aborts with the decode error, the
scoped (sorted) path list splits around a failing file — one that matches the
pattern, exists in the tree, and fails to decode, while every earlier path
was processed without error — and the destination bundle file for this run
exists and holds exactly the rendered prologue, the separator, the sections
of the paths before the failure, and the failing file's banner: the failing
file's body, all later sections and the epilogue are unwritten. -/
theorem claim_C1 {C : Type} [DecidableEq C] (env : MainEnv C) (now : Timestamp)
    (release_tag release_type : List Char) (from_ref to_ref : Option (List Char))
    (code_pattern : List Char)
    (h : (main_run env now release_tag release_type from_ref to_ref code_pattern).2 =
      some RunError.decode) :
    ∃ pre relpath post,
      sortedPaths (match env.files_list with
        | some content => resolve_file_list content
        | none => env.diff_filepaths) = pre ++ relpath :: post ∧
      (writeSections env.preferred env.tree code_pattern pre).2 = none ∧
      globMatch code_pattern relpath = true ∧
      (∃ content, env.tree relpath = some content ∧
        generate_file_contents env.preferred content =
          Except.error DecodeError.unableToDecode) ∧
      (main_run env now release_tag release_type from_ref to_ref code_pattern).1 =
        some (get_bundle_name
            (if release_tag = [] then
              default_release_tag now.year now.month now.day now.hour now.minute now.second
            else release_tag)
            (env.hexsha (resolve_from_commit env.repo from_ref env.db))
            (env.hexsha (resolve_to_commit env.repo to_ref)) ++ ".sql".toList,
          joinWith ['\n'] (generate_prologue release_type
            (get_bundle_name
              (if release_tag = [] then
                default_release_tag now.year now.month now.day now.hour now.minute now.second
              else release_tag)
              (env.hexsha (resolve_from_commit env.repo from_ref env.db))
              (env.hexsha (resolve_to_commit env.repo to_ref)))
            env.database_name) ++ ['\n'] ++ separatorChunk ++
            ((writeSections env.preferred env.tree code_pattern pre).1 ++
              fileBanner relpath)) := by
  by_cases hft : resolve_from_commit env.repo from_ref env.db =
      resolve_to_commit env.repo to_ref
  · simp [main_run, hft] at h
  · by_cases hdir : env.releases_dir_exists = false
    · simp [main_run, hft, hdir] at h
    · simp only [main_run, if_neg hft, if_neg hdir] at h
      simp only [create_release_bundle] at h
      cases hws : (writeSections env.preferred env.tree code_pattern
          (sortedPaths (match env.files_list with
            | some content => resolve_file_list content
            | none => env.diff_filepaths))).2 with
      | none =>
        rw [hws] at h
        simp at h
      | some e =>
        have heq : writeSections env.preferred env.tree code_pattern
            (sortedPaths (match env.files_list with
              | some content => resolve_file_list content
              | none => env.diff_filepaths)) =
            ((writeSections env.preferred env.tree code_pattern
              (sortedPaths (match env.files_list with
                | some content => resolve_file_list content
                | none => env.diff_filepaths))).1, some e) := by
          rw [← hws]
        obtain ⟨pre, f, post, hsplit, hpre, hglob, hcontent, hout⟩ :=
          writeSections_error _ _ _ _ _ _ heq
        refine ⟨pre, f, post, hsplit, hpre, hglob, hcontent, ?_⟩
        simp only [main_run, if_neg hft, if_neg hdir, create_release_bundle, hws]
        rw [hout]

/-- Claim C1 witness: the amended statement at the fixture whose single
scoped file fails to decode. -/
theorem claim_C1_witness :
    ∃ pre relpath post,
      sortedPaths (match decodeFailEnv.files_list with
        | some content => resolve_file_list content
        | none => decodeFailEnv.diff_filepaths) = pre ++ relpath :: post ∧
      (writeSections decodeFailEnv.preferred decodeFailEnv.tree ("*.sql".toList) pre).2 =
        none ∧
      globMatch ("*.sql".toList) relpath = true ∧
      (∃ content, decodeFailEnv.tree relpath = some content ∧
        generate_file_contents decodeFailEnv.preferred content =
          Except.error DecodeError.unableToDecode) ∧
      (main_run decodeFailEnv fixtureNow ("v".toList) ("t".toList) (some ("a".toList))
        (some ("b".toList)) ("*.sql".toList)).1 =
        some (get_bundle_name
            (if ("v".toList : List Char) = [] then
              default_release_tag fixtureNow.year fixtureNow.month fixtureNow.day
                fixtureNow.hour fixtureNow.minute fixtureNow.second
            else "v".toList)
            (decodeFailEnv.hexsha (resolve_from_commit decodeFailEnv.repo
              (some ("a".toList)) decodeFailEnv.db))
            (decodeFailEnv.hexsha (resolve_to_commit decodeFailEnv.repo
              (some ("b".toList)))) ++ ".sql".toList,
          joinWith ['\n'] (generate_prologue ("t".toList)
            (get_bundle_name
              (if ("v".toList : List Char) = [] then
                default_release_tag fixtureNow.year fixtureNow.month fixtureNow.day
                  fixtureNow.hour fixtureNow.minute fixtureNow.second
              else "v".toList)
              (decodeFailEnv.hexsha (resolve_from_commit decodeFailEnv.repo
                (some ("a".toList)) decodeFailEnv.db))
              (decodeFailEnv.hexsha (resolve_to_commit decodeFailEnv.repo
                (some ("b".toList)))))
            decodeFailEnv.database_name) ++ ['\n'] ++ separatorChunk ++
            ((writeSections decodeFailEnv.preferred decodeFailEnv.tree
              ("*.sql".toList) pre).1 ++ fileBanner relpath)) :=
  claim_C1 decodeFailEnv fixtureNow _ _ _ _ _ (by decide)

/-! ### Claim C3 — the explicit file list -/

theorem stripChars_append_newline (l : List Char) :
    stripChars (l ++ ['\n']) = stripChars l := by
  unfold stripChars
  rw [List.dropWhile_append]
  by_cases hl : (l.dropWhile isPySpace).isEmpty = true
  · have h2 : l.dropWhile isPySpace = [] := by
      cases hx : l.dropWhile isPySpace with
      | nil => rfl
      | cons a as => rw [hx] at hl; simp at hl
    rw [if_pos hl, h2]
    decide
  · rw [if_neg hl, List.reverse_append]
    have h3 : List.dropWhile isPySpace
        ((['\n'] : List Char).reverse ++ (l.dropWhile isPySpace).reverse) =
        List.dropWhile isPySpace ((l.dropWhile isPySpace).reverse) := by
      show List.dropWhile isPySpace ('\n' :: (l.dropWhile isPySpace).reverse) = _
      rw [List.dropWhile_cons, if_pos (by decide)]
    rw [h3]

theorem splitLinesAux_append (acc l rest : List Char) (h : '\n' ∉ l) :
    splitLinesAux acc (l ++ '\n' :: rest) =
      (acc.reverse ++ (l ++ ['\n'])) :: splitLinesAux [] rest := by
  induction l generalizing acc with
  | nil => simp [splitLinesAux]
  | cons c cs ih =>
    have hc : c ≠ '\n' := fun hcc => h (by simp [hcc])
    have hcs : '\n' ∉ cs := fun hx => h (by simp [hx])
    simp only [List.cons_append, splitLinesAux, if_neg hc]
    rw [List.append_eq, ih _ hcs]
    simp

/-- Claim C3 counterexample: the explicit list `b.sql, a.sql, b.sql` resolves
to exactly its trimmed lines with the duplicate retained — the resolved list
is not deduplicated — and the assembler later iterates it in sorted order,
not the given order. -/
theorem claim_C3_counterexample :
    resolve_file_list ("b.sql\na.sql\nb.sql\n".toList) =
      ["b.sql".toList, "a.sql".toList, "b.sql".toList] ∧
    ¬ (["b.sql".toList, "a.sql".toList, "b.sql".toList] : List (List Char)).Nodup ∧
    sortedPaths (resolve_file_list ("b.sql\na.sql\nb.sql\n".toList)) ≠
      resolve_file_list ("b.sql\na.sql\nb.sql\n".toList) := by
  decide

/-- Claim C3 (amended): the paths resolved from a supplied explicit file list
are exactly its whitespace-trimmed lines, in the given order, with duplicates
retained, and with no glob filtering or existence checking at resolution time
(the glob filter, the existence check and lexicographic sorting are applied
later, during assembly). -/
theorem claim_C3 (ls : List (List Char)) (h : ∀ l ∈ ls, '\n' ∉ l) :
    resolve_file_list (joinLinesNl ls) = ls.map stripChars := by
  induction ls with
  | nil => rfl
  | cons l rest ih =>
    have h1 : '\n' ∉ l := h l (by simp)
    have h2 : ∀ x ∈ rest, '\n' ∉ x := fun x hx => h x (by simp [hx])
    show resolve_file_list (l ++ '\n' :: joinLinesNl rest) =
      stripChars l :: rest.map stripChars
    simp only [resolve_file_list, splitLines]
    rw [splitLinesAux_append [] l _ h1]
    simp only [List.reverse_nil, List.nil_append, List.map_cons]
    rw [stripChars_append_newline]
    exact congrArg (stripChars l :: ·) (ih h2)

/-- Claim C3 witness: the amended statement at a two-line list whose second
line carries surrounding whitespace. -/
theorem claim_C3_witness :
    resolve_file_list (joinLinesNl ["b.sql".toList, " a.sql ".toList]) =
      (["b.sql".toList, " a.sql ".toList]).map stripChars :=
  claim_C3 _ (by decide)

/-! ### Claim C4 — normalization leaves no CR only when every CR is in a CRLF -/

theorem normalizeNewlines_cons_ne (c : Char) (rest : List Char) (hc : c ≠ '\r') :
    normalizeNewlines (c :: rest) = c :: normalizeNewlines rest := by
  rw [normalizeNewlines.eq_def]
  split
  · rename_i x r2 heq
    rw [List.cons.injEq] at heq
    exact absurd heq.1 hc
  · rename_i x c2 r2 hnot heq
    rw [List.cons.injEq] at heq
    rw [heq.1, heq.2]
  · rename_i x heq
    exact absurd heq (by simp)

theorem crOnlyInCrlf_cons_ne (c : Char) (rest : List Char) (hc : c ≠ '\r') :
    crOnlyInCrlf (c :: rest) = crOnlyInCrlf rest := by
  rw [crOnlyInCrlf.eq_def]
  split
  · rename_i x r2 heq
    rw [List.cons.injEq] at heq
    exact absurd heq.1 hc
  · rename_i x t heq
    rw [List.cons.injEq] at heq
    exact absurd heq.1 hc
  · rename_i x c2 r2 hnot1 hnot2 heq
    rw [List.cons.injEq] at heq
    rw [heq.2]
  · rename_i x heq
    exact absurd heq (by simp)

theorem crOnlyInCrlf_cr_ne (d : Char) (rest : List Char) (hd : d ≠ '\n') :
    crOnlyInCrlf ('\r' :: d :: rest) = false := by
  rw [crOnlyInCrlf.eq_def]
  split
  · rename_i x r2 heq
    rw [List.cons.injEq, List.cons.injEq] at heq
    exact absurd heq.2.1 hd
  · rfl
  · rename_i x c2 r2 hnot1 hnot2 heq
    rw [List.cons.injEq] at heq
    exact absurd heq.1.symm (by simpa using hnot2)
  · rename_i x heq
    exact absurd heq (by simp)

/-- When every carriage return of the decoded text is immediately followed by
a line feed, the normalized text contains no carriage return at all. -/
theorem normalizeNewlines_no_cr (s : List Char) (h : crOnlyInCrlf s = true) :
    '\r' ∉ normalizeNewlines s := by
  induction s using crOnlyInCrlf.induct with
  | case1 rest ih =>
    have h2 : crOnlyInCrlf rest = true := h
    show '\r' ∉ '\n' :: normalizeNewlines rest
    simp only [List.mem_cons]
    rintro (hch | hmem)
    · exact absurd hch (by decide)
    · exact ih h2 hmem
  | case2 tail hnot =>
    exfalso
    cases tail with
    | nil => exact absurd h (by decide)
    | cons d r2 =>
      have hd : d ≠ '\n' := fun hdd => hnot r2 (by rw [hdd])
      rw [crOnlyInCrlf_cr_ne d r2 hd] at h
      exact Bool.false_ne_true h
  | case3 c rest hnot1 hnot2 ih =>
    have hc : c ≠ '\r' := fun hcc => hnot2 hcc
    rw [crOnlyInCrlf_cons_ne c rest hc] at h
    rw [normalizeNewlines_cons_ne c rest hc]
    simp only [List.mem_cons]
    rintro (hch | hmem)
    · exact hc hch.symm
    · exact ih h hmem
  | case4 => simp [normalizeNewlines]

/-- Claim C4 counterexample: the decodable byte sequence `a \r b` normalizes
to text still containing `\r` (the lone carriage return survives), and a
per-file body whose text already ends in a newline is written with two
trailing newlines, not exactly one. -/
theorem claim_C4_counterexample :
    read_and_decode Codec.utf8 [97, 13, 98] = Except.ok ['a', '\r', 'b'] ∧
    '\r' ∈ ['a', '\r', 'b'] ∧
    stripUseGo ("x\n".toList) ++ ['\n'] = "x\n\n".toList := by
  decide

/-- Claim C4 (amended): normalization rewrites CRLF pairs only, so the
normalized text is free of `\r` exactly for inputs whose every CR sits in a
CRLF pair (a lone CR survives); every successful decode yields a text of the
form `normalizeNewlines s`; and every per-file body written into the bundle
is the stripped text plus one unconditionally appended newline, hence ends
with at least one newline (two when the text already ends with one). -/
theorem claim_C4 :
    (∀ s : List Char, crOnlyInCrlf s = true → '\r' ∉ normalizeNewlines s) ∧
    (∀ (preferred : Codec) (content : List Nat) (t : List Char),
      read_and_decode preferred content = Except.ok t → ∃ s, t = normalizeNewlines s) ∧
    (∀ body : List Char, (body ++ ['\n']).getLast? = some '\n') := by
  refine ⟨normalizeNewlines_no_cr, ?_, fun body => List.getLast?_concat _⟩
  intro preferred content t h
  simp only [read_and_decode] at h
  cases hd : tryDecode
      (match sniff_encoding preferred content with
       | some e => [e]
       | none => [Codec.utf8, preferred]) content with
  | some text =>
    rw [hd] at h
    injection h with h1
    exact ⟨text, h1.symm⟩
  | none =>
    rw [hd] at h
    exact absurd h (by simp)

/-- Claim C4 witness: the no-CR half at a CRLF-only text, and the
normalized-form half at a decodable byte sequence. -/
theorem claim_C4_witness :
    '\r' ∉ normalizeNewlines ("a\r\nb".toList) ∧
    (∃ s, (['a', '\n', 'b'] : List Char) = normalizeNewlines s) :=
  ⟨claim_C4.1 ("a\r\nb".toList) (by decide),
   claim_C4.2.1 Codec.utf8 [97, 13, 10, 98] ['a', '\n', 'b'] (by decide)⟩

/-! ### Claim C8 — newline-convention sniffing -/

/-- Claim C8 counterexample: in `"\n\n\r\n"` there are two line feeds not
immediately preceded by a carriage return (positions 0 and 1) against one
CRLF, so the claim's counting predicts the LF convention; but the regex scan
counts the consecutive line feeds pairwise (one match), ties 1–1, and on a
CRLF platform the sniffer returns CRLF. -/
theorem claim_C8_counterexample :
    claimedLoneLF ("\n\n\r\n".toList) = 2 ∧
    countCRLF ("\n\n\r\n".toList) = 1 ∧
    countLoneLF ("\n\n\r\n".toList) = 1 ∧
    sniff_newline_convention ['\r', '\n'] ("\n\n\r\n".toList) = ['\r', '\n'] := by
  decide

/-- Claim C8 (amended): the sniffer counts non-overlapping regex matches of
CRLF and of `^\n|[^\r]\n` — the latter consumes the character before each
line feed, so runs of consecutive line feeds are counted pairwise rather than
per position — and returns the convention with strictly more matches, the
platform default on a tie, and the platform default for text with no line
ending at all. -/
theorem claim_C8 (linesep text : List Char)
    (h : linesep = ['\n'] ∨ linesep = ['\r', '\n']) :
    sniff_newline_convention linesep text =
      (if countCRLF text < countLoneLF text then ['\n']
       else if countLoneLF text < countCRLF text then ['\r', '\n']
       else linesep) := by
  obtain ⟨c1, hc1⟩ : ∃ n, countCRLF text = n := ⟨_, rfl⟩
  obtain ⟨c2, hc2⟩ : ∃ n, countLoneLF text = n := ⟨_, rfl⟩
  rcases h with h | h
  · subst h
    simp only [sniff_newline_convention, hc1, hc2, tupLt,
      show (if (['\x0d', '\n'] : List Char) = ['\n'] then (1 : Nat) else 0) = 0 by decide,
      show (if (['\n'] : List Char) = ['\n'] then (1 : Nat) else 0) = 1 by decide,
      show strLt ['\n'] ['\x0d', '\n'] = true by decide,
      show strLt ['\x0d', '\n'] ['\n'] = false by decide,
      show strLt ['\n'] ['\n'] = false by decide,
      show strLt ['\x0d', '\n'] ['\x0d', '\n'] = false by decide]
    norm_num
    by_cases h1 : 0 < c1
    · by_cases h2 : c1 < c2
      · simp [h1, h2, Nat.ne_of_gt h1, (by omega : ¬ c2 < c1), (by omega : 0 ≠ c1)]
      · by_cases h3 : c2 < c1
        · have hne : ¬ c1 = c2 := by omega
          simp [h1, h2, h3, (by omega : 0 ≠ c1), hne]
        · have : c1 = c2 := by omega
          subst this
          simp [h1, h2, h3, (by omega : 0 ≠ c1)]
    · have : c1 = 0 := by omega
      subst this
      by_cases h2 : 0 < c2
      · simp [h2, (by omega : 0 ≠ c2), Nat.not_lt_zero]
      · have : c2 = 0 := by omega
        subst this
        simp
  · subst h
    simp only [sniff_newline_convention, hc1, hc2, tupLt,
      show (if (['\x0d', '\n'] : List Char) = ['\x0d', '\n'] then (1 : Nat) else 0) = 1
        by decide,
      show (if (['\n'] : List Char) = ['\x0d', '\n'] then (1 : Nat) else 0) = 0 by decide,
      show strLt ['\n'] ['\x0d', '\n'] = true by decide,
      show strLt ['\x0d', '\n'] ['\n'] = false by decide,
      show strLt ['\n'] ['\n'] = false by decide,
      show strLt ['\x0d', '\n'] ['\x0d', '\n'] = false by decide]
    norm_num
    by_cases h1 : 0 < c1
    · by_cases h2 : c1 < c2
      · simp [h1, h2, Nat.ne_of_gt h1, (by omega : ¬ c2 < c1), (by omega : 0 ≠ c1)]
      · by_cases h3 : c2 < c1
        · have hne : ¬ c1 = c2 := by omega
          simp [h1, h2, h3, (by omega : 0 ≠ c1), hne]
        · have : c1 = c2 := by omega
          subst this
          simp [h1, h2, h3, (by omega : 0 ≠ c1)]
    · have : c1 = 0 := by omega
      subst this
      by_cases h2 : 0 < c2
      · simp [h2, (by omega : 0 ≠ c2), Nat.not_lt_zero]
      · have : c2 = 0 := by omega
        subst this
        simp

/-- Claim C8 witness: the amended statement at the one-LF text `"a\n"` on an
LF platform. -/
theorem claim_C8_witness :
    sniff_newline_convention ['\n'] ("a\n".toList) =
      (if countCRLF ("a\n".toList) < countLoneLF ("a\n".toList) then ['\n']
       else if countLoneLF ("a\n".toList) < countCRLF ("a\n".toList) then ['\r', '\n']
       else ['\n']) :=
  claim_C8 ['\n'] ("a\n".toList) (Or.inl rfl)

end GBundle
